import Mathlib

/-!
Verification of the lead-routing batch script `process_leads_fixed.py`.

The script is a single linear batch transform over two tabular files:
load leads → parse timestamps → derive dates → deduplicate by
(Email, Date) → normalize zip codes → build a zip→dealer mapping →
fill empty dealer fields of "Deep Water" leads → drop the transient
`Zip_Clean` column → save.

This file shallowly embeds the script: rows become records, dataframes
become lists of records, the Python dict becomes a function
`String → Option String`, pandas NaN cells become `none`, and the
fallible parts (`pd.to_datetime`, printing to a possibly-ASCII console)
become `Except`-valued functions parameterised by the environment
(the timestamp parser, the sink's per-character encodability).
Python's `str.strip` and the regex class `\x64` (`\d`) are modelled over
ASCII whitespace and ASCII digits.
-/

/-- Embeds `clean_zip_code`'s use of `str(zip_str).strip()`
(process_leads_fixed.py line 11): drop leading and trailing
whitespace characters. -/
def pyStrip (s : String) : String :=
  String.mk (((s.toList.dropWhile Char.isWhitespace).reverse.dropWhile
    Char.isWhitespace).reverse)

/-- Embeds the test `re.match(r'(\x5cd{5})', zip_clean)` succeeding
(process_leads_fixed.py line 13): the string has at least five
characters and its first five characters are decimal digits. -/
def fiveDigitStart (s : String) : Bool :=
  decide ((s.toList.take 5).length = 5) && (s.toList.take 5).all Char.isDigit

/-- Embeds `clean_zip_code` (process_leads_fixed.py lines 6-16).
`none` stands for a pandas-NaN cell (`pd.isna`). On a match the
function returns the matched group, i.e. the first five digits of
the stripped string; otherwise the empty string. -/
def clean_zip_code (zipStr : Option String) : String :=
  match zipStr with
  | none => ""
  | some s =>
    if s = "" then ""
    else if fiveDigitStart (pyStrip s) then String.mk ((pyStrip s).toList.take 5)
    else ""

/-- One row of the leads file, with the columns the script touches.
`none` models a NaN cell. -/
structure Lead where
  timestamp : String
  email : Option String
  zip : Option String
  routeTo : Option String
  dealer : Option String
  firstName : String
  lastName : String
  deriving DecidableEq

/-- A lead row after `df['Date'] = df['Timestamp'].dt.date`
(process_leads_fixed.py lines 28-29): the row plus its derived
calendar date (dates are represented abstractly as naturals). -/
structure DLead where
  lead : Lead
  date : Nat
  deriving DecidableEq

/-- A lead row after `df_deduped['Zip_Clean'] = ...`
(process_leads_fixed.py line 40): the dated row plus the transient
normalized postal code. -/
structure ALead where
  lead : Lead
  date : Nat
  zipClean : String
  deriving DecidableEq

/-- The error raised by `pd.to_datetime` (default `errors='raise'`)
when some timestamp cell cannot be parsed. -/
structure ParseError where
  badTimestamp : String
  deriving DecidableEq

/-- Embeds `df['Timestamp'] = pd.to_datetime(df['Timestamp'])` together
with the date derivation (process_leads_fixed.py lines 28-29).
`parseTs` is the cell-level timestamp parser (library code, abstract
here), `dateOf` extracts the calendar date of a parsed date-time.
The whole column conversion fails as soon as any cell fails. -/
def parseAllTimestamps (parseTs : String → Option Nat) (dateOf : Nat → Nat) :
    List Lead → Except ParseError (List DLead)
  | [] => Except.ok []
  | r :: rs =>
    match parseTs r.timestamp with
    | none => Except.error ⟨r.timestamp⟩
    | some t =>
      match parseAllTimestamps parseTs dateOf rs with
      | Except.error e => Except.error e
      | Except.ok ds => Except.ok (⟨r, dateOf t⟩ :: ds)

/-- Embeds `df.drop_duplicates(subset, keep='first')`: scan the rows in
order, keeping a row only when its key has not been seen before. -/
def dropDuplicatesAux {α κ : Type} [DecidableEq κ] (key : α → κ) :
    List α → List κ → List α
  | [], _ => []
  | x :: xs, seen =>
    if key x ∈ seen then dropDuplicatesAux key xs seen
    else x :: dropDuplicatesAux key xs (key x :: seen)

/-- The deduplication key `subset=['Email', 'Date']`
(process_leads_fixed.py line 35). Pandas treats NaN cells as equal to
each other in `drop_duplicates`, which `Option` equality mirrors. -/
def dkey (a : DLead) : Option String × Nat :=
  (a.lead.email, a.date)

/-- Embeds `df.drop_duplicates(subset=['Email', 'Date'], keep='first')`
(process_leads_fixed.py line 35). -/
def dedupLeads (xs : List DLead) : List DLead :=
  dropDuplicatesAux dkey xs []

/-- Embeds `df_deduped['Zip_Clean'] = df_deduped['Zip'].apply(clean_zip_code)`
(process_leads_fixed.py line 40) for one row. -/
def annotateZip (d : DLead) : ALead :=
  ⟨d.lead, d.date, clean_zip_code d.lead.zip⟩

/-- Embeds `process_struxure_leads` (process_leads_fixed.py lines 18-42):
parse timestamps (propagating a `ParseError`), derive dates,
deduplicate by (Email, Date) keeping the first row, annotate each
survivor with its normalized zip. -/
def process_struxure_leads (parseTs : String → Option Nat) (dateOf : Nat → Nat)
    (rows : List Lead) : Except ParseError (List ALead) :=
  match parseAllTimestamps parseTs dateOf rows with
  | Except.error e => Except.error e
  | Except.ok ds => Except.ok ((dedupLeads ds).map annotateZip)

/-- True exactly on the `error` constructor. -/
def isErr {ε α : Type} : Except ε α → Bool
  | Except.error _ => true
  | Except.ok _ => false

/-- One row of the dealer reference file (`Deepwater Zips`): its raw
`zip` cell (`none` = NaN) and its `Assigned Dealer Account` cell. -/
structure DealerRow where
  zip : Option String
  dealer : String
  deriving DecidableEq

/-- One insertion into a Python dict: later insertions overwrite
earlier ones at the same key. The dict is modelled as its lookup
function. -/
def dictInsert (m : String → Option String) (k v : String) :
    String → Option String :=
  fun q => if q = k then some v else m q

/-- Embeds `process_deepwater_zips` (process_leads_fixed.py lines 44-59):
normalize every `zip` cell with `clean_zip_code`, then build
`zip_to_dealer = dict(zip(df_zips['zip_clean'], df_zips['Assigned Dealer Account']))`,
a sequential left-to-right dict build. -/
def process_deepwater_zips (rows : List DealerRow) : String → Option String :=
  rows.foldl (fun m r => dictInsert m (clean_zip_code r.zip) r.dealer)
    (fun _ => none)

/-- Writes `df.at[idx, 'Deepwater Dealer'] = d`
(process_leads_fixed.py line 82) on one row. -/
def setDealer (a : ALead) (d : String) : ALead :=
  ⟨⟨a.lead.timestamp, a.lead.email, a.lead.zip, a.lead.routeTo, some d,
    a.lead.firstName, a.lead.lastName⟩, a.date, a.zipClean⟩

/-- The per-row effect of the update loop of `update_deepwater_dealers`
(process_leads_fixed.py lines 66-83): a row is updated exactly when it
is a `Deep Water` row whose dealer cell is NaN or empty (the rows of
`empty_dealer_leads`) and its `Zip_Clean` is truthy (non-empty) and is
a key of `zip_to_dealer`. -/
def fillOne (zipToDealer : String → Option String) (a : ALead) : ALead :=
  if a.lead.routeTo = some "Deep Water" ∧
      (a.lead.dealer = none ∨ a.lead.dealer = some "") then
    if a.zipClean = "" then a
    else
      match zipToDealer a.zipClean with
      | some d => setDealer a d
      | none => a
  else a

/-- Embeds `update_deepwater_dealers` (process_leads_fixed.py
lines 61-101): the loop iterates over a snapshot of the candidate rows
and writes each updated cell at that row's own label, so the dataframe
mutation is the row-wise map of `fillOne`; every other row of `df` is
returned untouched. -/
def update_deepwater_dealers (zipToDealer : String → Option String)
    (leads : List ALead) : List ALead :=
  leads.map (fillOne zipToDealer)

/-- Column-level effect of adding a column by assignment
(`df[c] = ...`): a new column is appended at the right end unless a
column of that name already exists, in which case its cells are
overwritten in place. -/
def addColumn (cols : List String) (c : String) : List String :=
  if c ∈ cols then cols else cols ++ [c]

/-- Column-level effect of `df.drop(c, axis=1)`. -/
def dropColumn (cols : List String) (c : String) : List String :=
  cols.filter (fun x => decide (x ≠ c))

/-- The required columns of input file A (the leads file), in header
order. -/
def inputColumnsA : List String :=
  ["Timestamp", "Email", "Zip", "Route To", "Deepwater Dealer",
   "First Name", "Last Name"]

/-- Column-level effect of the whole run on the leads table: the
`Timestamp` overwrite and `Date` assignment (process_leads_fixed.py
lines 28-29), the `Zip_Clean` assignment (line 40), and
`df_updated.drop('Zip_Clean', axis=1)` before `to_csv`
(lines 116-121). -/
def main_output_columns (cols : List String) : List String :=
  dropColumn (addColumn (addColumn (addColumn cols "Timestamp") "Date")
    "Zip_Clean") "Zip_Clean"

/-- The text printed for NaN and non-NaN cells inside an f-string. -/
def zipText (z : Option String) : String :=
  match z with
  | some s => s
  | none => "nan"

/-- Embeds `.encode('ascii', 'replace').decode('ascii')`
(process_leads_fixed.py line 98): every character the ASCII codec
cannot encode is replaced by a question mark. -/
def asciiReplace (s : String) : String :=
  String.mk (s.toList.map (fun c => if c.toNat < 128 then c else '?'))

/-- Whether the reporting sink can encode every character of `s`;
`enc` is the sink's per-character encodability. -/
def strEncodable (enc : Char → Bool) (s : String) : Bool :=
  s.toList.all enc

/-- The report line for one still-unresolved lead
(process_leads_fixed.py line 95). -/
def stillEmptyLine (a : ALead) : String :=
  "  " ++ a.lead.firstName ++ " " ++ a.lead.lastName ++ " - ZIP: " ++
    zipText a.lead.zip ++ " (cleaned: " ++ a.zipClean ++ ")"

/-- The fallback report line built in the `except UnicodeEncodeError`
handler (process_leads_fixed.py lines 96-99): only the name portion is
ASCII-replaced, the zip portions are reprinted raw. -/
def stillEmptyLineSafe (a : ALead) : String :=
  "  " ++ asciiReplace (a.lead.firstName ++ " " ++ a.lead.lastName) ++
    " - ZIP: " ++ zipText a.lead.zip ++ " (cleaned: " ++ a.zipClean ++ ")"

/-- Embeds the rendering of one still-unresolved report line
(process_leads_fixed.py lines 93-99): print the line; on a
`UnicodeEncodeError` retry once with the ASCII-replaced name; if that
print also fails to encode, the exception propagates (modelled as
`Except.error`). -/
def renderStillEmptyLine (enc : Char → Bool) (a : ALead) :
    Except Unit String :=
  if strEncodable enc (stillEmptyLine a) then Except.ok (stillEmptyLine a)
  else if strEncodable enc (stillEmptyLineSafe a) then
    Except.ok (stillEmptyLineSafe a)
  else Except.error ()

/-- Whether every character of `s` is ASCII. -/
def allAscii (s : String) : Bool :=
  s.toList.all (fun c => decide (c.toNat < 128))

/-- A lead-row skeleton used by the concrete test fixtures below. -/
def exLead (fn : String) (em : Option String) : Lead :=
  ⟨"t0", em, none, none, none, fn, "L"⟩

/-- Fixture: first row of the dedup example, email `a@x.com`, date 1. -/
def exRow1 : DLead := ⟨exLead "A" (some "a@x.com"), 1⟩

/-- Fixture: second row, same email and date as `exRow1`. -/
def exRow2 : DLead := ⟨exLead "B" (some "a@x.com"), 1⟩

/-- Fixture: third row, same email, date 2. -/
def exRow3 : DLead := ⟨exLead "C" (some "a@x.com"), 2⟩

/-- Fixture: rows with a missing (NaN) email and a common date. -/
def neRow1 : DLead := ⟨exLead "P" none, 5⟩

/-- Fixture: second missing-email row of the same date. -/
def neRow2 : DLead := ⟨exLead "Q" none, 5⟩

/-- Fixture: third missing-email row of the same date. -/
def neRow3 : DLead := ⟨exLead "R" none, 5⟩

/-- Fixture: the one-entry dealer mapping of the spec's test vector. -/
def exMap : String → Option String :=
  fun k => if k = "90210" then some "DealerX" else none

/-- Fixture: a Deep Water lead with an empty dealer cell and a
resolvable zip `90210-77`. -/
def exCandidate : ALead :=
  ⟨⟨"t0", some "a@x.com", some "90210-77", some "Deep Water", some "",
    "Jane", "Doe"⟩, 1, clean_zip_code (some "90210-77")⟩

/-- Fixture: a Deep Water lead with a NaN dealer cell and an unmapped
zip `00000`. -/
def exUnresolved : ALead :=
  ⟨⟨"t0", some "b@x.com", some "00000", some "Deep Water", none,
    "Bob", "Roe"⟩, 1, clean_zip_code (some "00000")⟩

/-- Fixture: a Struxure-routed lead whose zip is in the mapping. -/
def exNonTarget : ALead :=
  ⟨⟨"t0", some "c@x.com", some "90210", some "Struxure", none,
    "Cid", "Poe"⟩, 1, "90210"⟩

/-- Fixture: a Deep Water lead whose dealer cell is already populated. -/
def exFilled : ALead :=
  ⟨⟨"t0", some "d@x.com", some "90210", some "Deep Water",
    some "OldDealer", "Dan", "Moe"⟩, 1, "90210"⟩

/-- Default row used with `List.getD`. -/
def dummyALead : ALead :=
  ⟨⟨"", none, none, none, none, "", ""⟩, 0, ""⟩

/-- Fixture: a timestamp parser that fails exactly on the cell "bad". -/
def parseTs0 : String → Option Nat :=
  fun s => if s = "bad" then none else some 7

/-- Fixture: a trivial calendar-date extractor. -/
def dateOf0 : Nat → Nat := fun t => t

/-- Fixture: a lead whose timestamp cell `parseTs0` rejects. -/
def badLead : Lead := ⟨"bad", none, none, none, none, "X", "Y"⟩

/-- Fixture: a lead whose timestamp cell `parseTs0` accepts. -/
def goodLead : Lead := ⟨"2024-01-01", none, none, none, none, "X", "Y"⟩

/-- Fixture: an ASCII-only reporting sink. -/
def asciiEnc : Char → Bool := fun c => decide (c.toNat < 128)

/-- Fixture: an unresolved Deep Water lead whose raw zip cell contains
a non-ASCII character. -/
def cexZipLead : ALead :=
  ⟨⟨"t0", some "e@x.com", some "90é10", some "Deep Water", none,
    "Ann", "Bee"⟩, 1, clean_zip_code (some "90é10")⟩

/-- Fixture: an unresolved Deep Water lead whose name contains a
non-ASCII character but whose zip cells are ASCII. -/
def cexNameLead : ALead :=
  ⟨⟨"t0", some "f@x.com", some "12345", some "Deep Water", none,
    "Añn", "Bee"⟩, 1, clean_zip_code (some "12345")⟩

/-- Fixture: first dealer-reference row for the zip `90210`. -/
def dupRow1 : DealerRow := ⟨some "90210", "DealerOne"⟩

/-- Fixture: a later dealer-reference row normalizing to the same
zip `90210`. -/
def dupRow2 : DealerRow := ⟨some "90210-1234", "DealerTwo"⟩

/-! ## Helper lemmas about deduplication -/

theorem dropDupAux_sublist {α κ : Type} [DecidableEq κ] (key : α → κ)
    (xs : List α) : ∀ seen : List κ,
    (dropDuplicatesAux key xs seen).Sublist xs := by
  induction xs with
  | nil => intro seen; exact List.Sublist.slnil
  | cons x xs ih =>
    intro seen
    unfold dropDuplicatesAux
    by_cases h : key x ∈ seen
    · rw [if_pos h]
      exact (ih seen).cons x
    · rw [if_neg h]
      exact (ih (key x :: seen)).cons₂ x

theorem dropDupAux_keys_nodup {α κ : Type} [DecidableEq κ] (key : α → κ)
    (xs : List α) : ∀ seen : List κ,
    ((dropDuplicatesAux key xs seen).map key).Nodup ∧
      ∀ k ∈ (dropDuplicatesAux key xs seen).map key, k ∉ seen := by
  induction xs with
  | nil => intro seen; simp [dropDuplicatesAux]
  | cons x xs ih =>
    intro seen
    unfold dropDuplicatesAux
    by_cases h : key x ∈ seen
    · rw [if_pos h]
      exact ih seen
    · rw [if_neg h]
      obtain ⟨hn, hs⟩ := ih (key x :: seen)
      simp only [List.map_cons, List.nodup_cons]
      refine ⟨⟨fun hmem => ?_, hn⟩, ?_⟩
      · exact (hs _ hmem) (List.mem_cons_self _ _)
      · intro k hk
        rcases List.mem_cons.mp hk with hk0 | hk'
        · exact hk0 ▸ h
        · intro hkseen
          exact (hs k hk') (List.mem_cons_of_mem _ hkseen)

theorem dropDupAux_mem_iff {α κ : Type} [DecidableEq κ] (key : α → κ)
    (y : α) (xs : List α) : ∀ seen : List κ,
    (y ∈ dropDuplicatesAux key xs seen ↔
      key y ∉ seen ∧ xs.find? (fun z => decide (key z = key y)) = some y) := by
  induction xs with
  | nil => intro seen; simp [dropDuplicatesAux]
  | cons x xs ih =>
    intro seen
    unfold dropDuplicatesAux
    by_cases hk : key x = key y
    · by_cases hx : key x ∈ seen
      · rw [if_pos hx, ih seen]
        exact iff_of_false (fun hc => hc.1 (hk ▸ hx))
          (fun hc => hc.1 (hk ▸ hx))
      · rw [if_neg hx]
        rw [List.find?_cons_of_pos _ (by simpa using hk)]
        constructor
        · intro hmem
          rcases List.mem_cons.mp hmem with rfl | hmem'
          · exact ⟨hk ▸ hx, rfl⟩
          · obtain ⟨hns, _⟩ := (ih (key x :: seen)).mp hmem'
            exact absurd (hk ▸ List.mem_cons_self (key x) seen) hns
        · rintro ⟨hns, hxy⟩
          rw [Option.some.injEq] at hxy
          exact hxy ▸ List.mem_cons_self x _
    · have hfind : (x :: xs).find? (fun z => decide (key z = key y)) =
        xs.find? (fun z => decide (key z = key y)) :=
        List.find?_cons_of_neg _ (by simpa using hk)
      by_cases hx : key x ∈ seen
      · rw [if_pos hx, ih seen, hfind]
      · rw [if_neg hx, hfind]
        constructor
        · intro hmem
          rcases List.mem_cons.mp hmem with rfl | hmem'
          · exact absurd rfl hk
          · obtain ⟨hns, hf⟩ := (ih (key x :: seen)).mp hmem'
            exact ⟨fun hc => hns (List.mem_cons_of_mem _ hc), hf⟩
        · rintro ⟨hns, hf⟩
          refine List.mem_cons_of_mem _ ((ih (key x :: seen)).mpr ⟨?_, hf⟩)
          intro hc
          rcases List.mem_cons.mp hc with hc0 | hc'
          · exact hk hc0.symm
          · exact hns hc'

theorem mem_dedupLeads_iff (y : DLead) (xs : List DLead) :
    y ∈ dedupLeads xs ↔
      xs.find? (fun z => decide (dkey z = dkey y)) = some y := by
  rw [dedupLeads, dropDupAux_mem_iff]
  simp

theorem countP_le_one_of_keys_nodup {α κ : Type} [DecidableEq κ]
    (key : α → κ) (k : κ) (l : List α) (hn : (l.map key).Nodup) :
    l.countP (fun a => decide (key a = k)) ≤ 1 := by
  induction l with
  | nil => simp
  | cons x l ih =>
    rw [List.map_cons, List.nodup_cons] at hn
    obtain ⟨hx, hn'⟩ := hn
    rw [List.countP_cons]
    by_cases hk : key x = k
    · have hz : l.countP (fun a => decide (key a = k)) = 0 := by
        rw [List.countP_eq_zero]
        intro a ha
        simp only [decide_eq_true_eq]
        intro he
        exact hx (by rw [hk, ← he]; exact List.mem_map_of_mem key ha)
      simp [hz, hk]
    · simpa [hk] using ih hn'

theorem getD_map_of_lt {α β : Type} (f : α → β) (l : List α) :
    ∀ i : Nat, i < l.length → ∀ (d : α) (e : β),
    (l.map f).getD i e = f (l.getD i d) := by
  induction l with
  | nil => intro i h; simp at h
  | cons x l ih =>
    intro i h d e
    cases i with
    | zero => rfl
    | succ n =>
      simp only [List.map_cons, List.getD_cons_succ]
      exact ih n (by simpa using h) d e

/-! ## Helper lemmas about the dealer-map build -/

theorem foldl_dictInsert_apply (k : String) (rows : List DealerRow) :
    ∀ m0 : String → Option String,
    (rows.foldl (fun m r => dictInsert m (clean_zip_code r.zip) r.dealer) m0) k =
      match rows.reverse.find? (fun r => decide (clean_zip_code r.zip = k)) with
      | some r => some r.dealer
      | none => m0 k := by
  induction rows with
  | nil => intro m0; rfl
  | cons r rs ih =>
    intro m0
    rw [List.foldl_cons, ih, List.reverse_cons, List.find?_append]
    cases hfind : rs.reverse.find? (fun s => decide (clean_zip_code s.zip = k)) with
    | some r' => rfl
    | none =>
      by_cases hz : clean_zip_code r.zip = k
      · simp [dictInsert, hz, List.find?]
      · have : ¬ (k = clean_zip_code r.zip) := fun hc => hz hc.symm
        simp [dictInsert, hz, this, List.find?]

theorem find?_reverse_eq_getLast?_filter (p : DealerRow → Bool)
    (l : List DealerRow) :
    l.reverse.find? p = (l.filter p).getLast? := by
  induction l using List.reverseRecOn with
  | nil => rfl
  | append_singleton l a ih =>
    rw [List.reverse_append, List.filter_append]
    by_cases hp : p a
    · simp only [List.reverse_cons, List.reverse_nil, List.nil_append,
        List.filter_cons_of_pos hp, List.filter_nil, List.singleton_append]
      rw [List.find?_cons_of_pos _ hp, List.getLast?_concat]
    · simp only [List.reverse_cons, List.reverse_nil, List.nil_append,
        List.filter_cons_of_neg hp, List.filter_nil, List.append_nil,
        List.singleton_append]
      rw [List.find?_cons_of_neg _ hp]
      exact ih

/-! ## Helper lemmas about report-line encoding -/

theorem strEncodable_append (enc : Char → Bool) (s t : String) :
    strEncodable enc (s ++ t) = (strEncodable enc s && strEncodable enc t) := by
  obtain ⟨sd⟩ := s
  obtain ⟨td⟩ := t
  simp [strEncodable, String.toList, List.all_append]

theorem strEncodable_of_allAscii (enc : Char → Bool)
    (hascii : ∀ c : Char, c.toNat < 128 → enc c = true) (s : String)
    (h : allAscii s = true) : strEncodable enc s = true := by
  rw [strEncodable, List.all_eq_true]
  rw [allAscii, List.all_eq_true] at h
  intro c hc
  exact hascii c (by simpa using h c hc)

theorem allAscii_asciiReplace (s : String) :
    allAscii (asciiReplace s) = true := by
  rw [allAscii, asciiReplace, List.all_eq_true]
  intro c hc
  simp only [String.toList] at hc
  rw [List.mem_map] at hc
  obtain ⟨c0, _, rfl⟩ := hc
  by_cases h : c0.toNat < 128
  · simp [h]
  · simp [h]

/-! ## Helper lemmas about timestamp parsing -/

theorem isErr_parseAllTimestamps_iff (parseTs : String → Option Nat)
    (dateOf : Nat → Nat) (rows : List Lead) :
    isErr (parseAllTimestamps parseTs dateOf rows) = true ↔
      ∃ r ∈ rows, parseTs r.timestamp = none := by
  induction rows with
  | nil => simp [parseAllTimestamps, isErr]
  | cons r rs ih =>
    rw [parseAllTimestamps]
    cases hp : parseTs r.timestamp with
    | none => simp [isErr, hp]
    | some t =>
      cases hrec : parseAllTimestamps parseTs dateOf rs with
      | error e =>
        simp only [isErr, true_iff]
        have : ∃ s ∈ rs, parseTs s.timestamp = none := by
          rw [← ih, hrec]; rfl
        obtain ⟨s, hs, hn⟩ := this
        exact ⟨s, List.mem_cons_of_mem _ hs, hn⟩
      | ok ds =>
        have hnone : ¬ ∃ s ∈ r :: rs, parseTs s.timestamp = none := by
          rintro ⟨s, hs, hn⟩
          rcases List.mem_cons.mp hs with rfl | hs'
          · rw [hp] at hn; cases hn
          · have hErr : isErr (parseAllTimestamps parseTs dateOf rs) = true :=
              ih.mpr ⟨s, hs', hn⟩
            rw [hrec] at hErr; cases hErr
        simp only [isErr]
        exact iff_of_false (by simp) hnone

theorem parseAllTimestamps_ok_keeps_rows (parseTs : String → Option Nat)
    (dateOf : Nat → Nat) (rows : List Lead) :
    ∀ ds : List DLead, parseAllTimestamps parseTs dateOf rows = Except.ok ds →
      ds.map DLead.lead = rows := by
  induction rows with
  | nil =>
    intro ds h
    rw [parseAllTimestamps] at h
    cases h
    rfl
  | cons r rs ih =>
    intro ds h
    rw [parseAllTimestamps] at h
    cases hp : parseTs r.timestamp with
    | none => rw [hp] at h; cases h
    | some t =>
      rw [hp] at h
      cases hrec : parseAllTimestamps parseTs dateOf rs with
      | error e => rw [hrec] at h; cases h
      | ok ds' =>
        rw [hrec] at h
        cases h
        rw [List.map_cons, ih ds' hrec]

/-! ## Claim theorems -/

/-- C4: the zip normalizer satisfies the spec's test vectors —
`90210-1234 ↦ 90210`, `" 90210 " ↦ 90210`, `ABC12 ↦ ""`,
missing `↦ ""`, `1234 ↦ ""` — and in general it strips the input and
returns the five leading decimal digits when the stripped string
starts with at least five consecutive digits, otherwise the empty
string. -/
theorem clean_zip_code_spec :
    clean_zip_code (some "90210-1234") = "90210" ∧
    clean_zip_code (some " 90210 ") = "90210" ∧
    clean_zip_code (some "ABC12") = "" ∧
    clean_zip_code none = "" ∧
    clean_zip_code (some "1234") = "" ∧
    ∀ s : String, clean_zip_code (some s) =
      if fiveDigitStart (pyStrip s) then String.mk ((pyStrip s).toList.take 5)
      else "" := by
  refine ⟨by decide, by decide, by decide, rfl, by decide, ?_⟩
  intro s
  by_cases h : s = ""
  · subst h; decide
  · simp only [clean_zip_code, if_neg h]

/-- C7: the zip normalizer is a total function: a missing or empty
input yields the empty string, every input yields either the empty
string or a five-digit string, and any input whose stripped form does
not start with five digits (malformed input) yields the empty string
rather than an error. -/
theorem clean_zip_code_total :
    clean_zip_code none = "" ∧
    clean_zip_code (some "") = "" ∧
    (∀ s : String, clean_zip_code (some s) = "" ∨
      ((clean_zip_code (some s)).toList.length = 5 ∧
        (clean_zip_code (some s)).toList.all Char.isDigit = true)) ∧
    (∀ s : String, fiveDigitStart (pyStrip s) = false →
      clean_zip_code (some s) = "") := by
  refine ⟨rfl, rfl, ?_, ?_⟩
  · intro s
    by_cases h : s = ""
    · subst h; left; rfl
    · simp only [clean_zip_code, if_neg h]
      by_cases h5 : fiveDigitStart (pyStrip s) = true
      · right
        rw [if_pos h5]
        rw [fiveDigitStart, Bool.and_eq_true, decide_eq_true_eq] at h5
        exact ⟨h5.1, h5.2⟩
      · left
        rw [if_neg h5]
  · intro s h5
    by_cases h : s = ""
    · subst h; rfl
    · simp only [clean_zip_code, if_neg h, h5]
      simp

/-- Witness for C7 at the malformed input "ABC12". -/
theorem clean_zip_code_total_witness :
    fiveDigitStart (pyStrip "ABC12") = false ∧
    clean_zip_code (some "ABC12") = "" :=
  ⟨by decide, clean_zip_code_total.2.2.2 "ABC12" (by decide)⟩

/-- C1 counterexample: on the required input columns the exported
column list differs from the input columns — the transient `Zip_Clean`
column is dropped but the derived `Date` column survives into the
output. -/
theorem main_output_columns_cex :
    main_output_columns inputColumnsA ≠ inputColumnsA ∧
    "Date" ∈ main_output_columns inputColumnsA ∧
    "Zip_Clean" ∉ main_output_columns inputColumnsA := by
  refine ⟨?_, ?_, ?_⟩ <;> decide

/-- C1 (amended): only the normalized-postal-code working column
`Zip_Clean` is dropped before export; the derived calendar-date column
`Date` is kept, so for any input whose columns include `Timestamp` and
do not already include the working columns, the output columns are the
input columns followed by `Date`. -/
theorem main_output_columns_amended (cols : List String)
    (hT : "Timestamp" ∈ cols) (hD : "Date" ∉ cols)
    (hZ : "Zip_Clean" ∉ cols) :
    main_output_columns cols = cols ++ ["Date"] := by
  have e1 : addColumn cols "Timestamp" = cols := by
    rw [addColumn, if_pos hT]
  have e2 : addColumn cols "Date" = cols ++ ["Date"] := by
    rw [addColumn, if_neg hD]
  have hzc : "Zip_Clean" ∉ cols ++ ["Date"] := by
    intro hc
    rcases List.mem_append.mp hc with h1 | h2
    · exact hZ h1
    · simp at h2
  have e3 : addColumn (cols ++ ["Date"]) "Zip_Clean" =
      (cols ++ ["Date"]) ++ ["Zip_Clean"] := by
    rw [addColumn, if_neg hzc]
  have h1 : cols.filter (fun x => decide (x ≠ "Zip_Clean")) = cols := by
    rw [List.filter_eq_self]
    intro x hx
    simp only [decide_eq_true_eq]
    intro hc
    exact hZ (hc ▸ hx)
  rw [main_output_columns, e1, e2, e3, dropColumn, List.filter_append,
    List.filter_append, h1]
  simp

/-- Witness for the amended C1 at the required leads-file columns. -/
theorem main_output_columns_amended_witness :
    main_output_columns inputColumnsA = inputColumnsA ++ ["Date"] :=
  main_output_columns_amended inputColumnsA (by decide) (by decide) (by decide)

/-- C3: deduplication is global over the whole dataset keyed by
(Email, derived date): the survivors form a sublist of the input (so
they stay in original file order), no two survivors share a key, a row
survives exactly when it is the first row of the file carrying its
key, and the spec's example — two rows with the same email and date
followed by one with a different date — keeps exactly the first and
the third row. -/
theorem dedup_keeps_first_per_key (xs : List DLead) :
    (dedupLeads xs).Sublist xs ∧
    ((dedupLeads xs).map dkey).Nodup ∧
    (∀ y : DLead, y ∈ dedupLeads xs ↔
      xs.find? (fun z => decide (dkey z = dkey y)) = some y) ∧
    dedupLeads [exRow1, exRow2, exRow3] = [exRow1, exRow3] :=
  ⟨dropDupAux_sublist dkey xs [], (dropDupAux_keys_nodup dkey xs []).1,
    fun y => mem_dedupLeads_iff y xs, by decide⟩

/-- Witness for C3: the first of the two same-key rows survives. -/
theorem dedup_keeps_first_per_key_witness :
    exRow1 ∈ dedupLeads [exRow1, exRow2, exRow3] :=
  ((dedup_keeps_first_per_key [exRow1, exRow2, exRow3]).2.2.1 exRow1).mpr
    (by decide)

/-- C10: missing (NaN) Email cells compare equal to each other in the
dedup key, so among rows with a missing email and the same derived
date at most one row survives, a row of that key survives exactly when
it is the first such row of the file, and three missing-email rows
with one shared date collapse to the first row alone. -/
theorem dedup_collapses_missing_email (xs : List DLead) (d : Nat) :
    ((dedupLeads xs).countP
        (fun a => decide (a.lead.email = none ∧ a.date = d)) ≤ 1) ∧
    (∀ y : DLead, y.lead.email = none → y.date = d →
      (y ∈ dedupLeads xs ↔
        xs.find? (fun z => decide (dkey z = (none, d))) = some y)) ∧
    dedupLeads [neRow1, neRow2, neRow3] = [neRow1] := by
  refine ⟨?_, ?_, by decide⟩
  · have hcong : ∀ a : DLead,
        (decide (a.lead.email = none ∧ a.date = d)) =
          (decide (dkey a = ((none : Option String), d))) := by
      intro a
      apply decide_eq_decide.mpr
      constructor
      · rintro ⟨h1, h2⟩
        rw [dkey, h1, h2]
      · intro h
        rw [dkey, Prod.mk.injEq] at h
        exact h
    simp only [hcong]
    exact countP_le_one_of_keys_nodup dkey (none, d) (dedupLeads xs)
      (dropDupAux_keys_nodup dkey xs []).1
  · intro y he hd
    have hk : dkey y = ((none : Option String), d) := by
      rw [dkey, he, hd]
    rw [mem_dedupLeads_iff]
    simp only [hk]

/-- Witness for C10: the first missing-email row survives. -/
theorem dedup_collapses_missing_email_witness :
    neRow1 ∈ dedupLeads [neRow1, neRow2, neRow3] :=
  ((dedup_collapses_missing_email [neRow1, neRow2, neRow3] 5).2.1 neRow1
    rfl rfl).mpr (by decide)

/-- C5: when at least two reference rows normalize to the same postal
code, the mapping assigns that code the dealer of the last such row in
file order. -/
theorem dealer_map_last_write_wins (rows : List DealerRow) (k : String)
    (hdup : 2 ≤ (rows.filter
      (fun r => decide (clean_zip_code r.zip = k))).length) :
    process_deepwater_zips rows k =
      Option.map DealerRow.dealer
        ((rows.filter (fun r => decide (clean_zip_code r.zip = k))).getLast?) := by
  rw [process_deepwater_zips, foldl_dictInsert_apply,
    find?_reverse_eq_getLast?_filter]
  cases hl : (rows.filter (fun r => decide (clean_zip_code r.zip = k))).getLast? with
  | some r => rfl
  | none =>
    exfalso
    cases hfl : rows.filter (fun r => decide (clean_zip_code r.zip = k)) with
    | nil =>
      rw [hfl] at hdup
      simp at hdup
    | cons a l =>
      rw [hfl] at hl
      simp at hl

/-- Witness for C5: two rows normalizing to 90210; the later row's
dealer wins. -/
theorem dealer_map_last_write_wins_witness :
    process_deepwater_zips [dupRow1, dupRow2] "90210" = some "DealerTwo" := by
  have h := dealer_map_last_write_wins [dupRow1, dupRow2] "90210" (by decide)
  rw [h]
  decide

/-- C2: in the dealer-fill stage, a lead routed to `Deep Water` whose
dealer cell is missing or empty gets the mapped dealer written into
its dealer field when its normalized zip is non-empty and is a key of
the mapping, and is left unchanged when its normalized zip is empty or
has no entry in the mapping. -/
theorem dealer_fill_candidate_behavior (m : String → Option String)
    (leads : List ALead) (i : Nat) (h : i < leads.length)
    (hroute : (leads.getD i dummyALead).lead.routeTo = some "Deep Water")
    (hempty : (leads.getD i dummyALead).lead.dealer = none ∨
      (leads.getD i dummyALead).lead.dealer = some "") :
    (∀ d : String, (leads.getD i dummyALead).zipClean ≠ "" →
      m ((leads.getD i dummyALead).zipClean) = some d →
      (update_deepwater_dealers m leads).getD i dummyALead =
        setDealer (leads.getD i dummyALead) d) ∧
    ((leads.getD i dummyALead).zipClean = "" ∨
      m ((leads.getD i dummyALead).zipClean) = none →
      (update_deepwater_dealers m leads).getD i dummyALead =
        leads.getD i dummyALead) := by
  have hmap : (update_deepwater_dealers m leads).getD i dummyALead =
      fillOne m (leads.getD i dummyALead) := by
    rw [update_deepwater_dealers]
    exact getD_map_of_lt (fillOne m) leads i h dummyALead dummyALead
  constructor
  · intro d hz hm
    rw [hmap, fillOne, if_pos ⟨hroute, hempty⟩, if_neg hz, hm]
  · intro hor
    rcases hor with hz | hm
    · rw [hmap, fillOne, if_pos ⟨hroute, hempty⟩, if_pos hz]
    · by_cases hz : (leads.getD i dummyALead).zipClean = ""
      · rw [hmap, fillOne, if_pos ⟨hroute, hempty⟩, if_pos hz]
      · rw [hmap, fillOne, if_pos ⟨hroute, hempty⟩, if_neg hz, hm]

/-- Witness for C2: the spec's test vectors — zip `90210-77` resolves
to DealerX, unmapped zip `00000` leaves the lead unchanged. -/
theorem dealer_fill_candidate_behavior_witness :
    (update_deepwater_dealers exMap [exCandidate, exUnresolved]).getD 0
        dummyALead = setDealer exCandidate "DealerX" ∧
    (update_deepwater_dealers exMap [exCandidate, exUnresolved]).getD 1
        dummyALead = exUnresolved :=
  ⟨(dealer_fill_candidate_behavior exMap [exCandidate, exUnresolved] 0
      (by decide) (by decide) (by decide)).1 "DealerX" (by decide) (by decide),
   (dealer_fill_candidate_behavior exMap [exCandidate, exUnresolved] 1
      (by decide) (by decide) (by decide)).2 (by decide)⟩

/-- C6: the dealer-fill stage leaves unchanged every lead not routed
to `Deep Water`, and every lead whose dealer field is already
populated with a non-empty value, regardless of the mapping. -/
theorem dealer_fill_frame (m : String → Option String) (leads : List ALead)
    (i : Nat) (h : i < leads.length)
    (hcase : (leads.getD i dummyALead).lead.routeTo ≠ some "Deep Water" ∨
      ∃ s : String, (leads.getD i dummyALead).lead.dealer = some s ∧ s ≠ "") :
    (update_deepwater_dealers m leads).getD i dummyALead =
      leads.getD i dummyALead := by
  have hmap : (update_deepwater_dealers m leads).getD i dummyALead =
      fillOne m (leads.getD i dummyALead) := by
    rw [update_deepwater_dealers]
    exact getD_map_of_lt (fillOne m) leads i h dummyALead dummyALead
  have hneg : ¬ ((leads.getD i dummyALead).lead.routeTo = some "Deep Water" ∧
      ((leads.getD i dummyALead).lead.dealer = none ∨
        (leads.getD i dummyALead).lead.dealer = some "")) := by
    rintro ⟨hr, hd⟩
    rcases hcase with hc | ⟨s, hs, hne⟩
    · exact hc hr
    · rcases hd with hd | hd
      · rw [hs] at hd
        cases hd
      · rw [hs, Option.some.injEq] at hd
        exact hne hd
  rw [hmap, fillOne, if_neg hneg]

/-- Witness for C6: a Struxure-routed lead and an already-filled
Deep Water lead both pass through unchanged even though their zips are
in the mapping. -/
theorem dealer_fill_frame_witness :
    (update_deepwater_dealers exMap [exNonTarget, exFilled]).getD 0
        dummyALead = exNonTarget ∧
    (update_deepwater_dealers exMap [exNonTarget, exFilled]).getD 1
        dummyALead = exFilled :=
  ⟨dealer_fill_frame exMap [exNonTarget, exFilled] 0 (by decide)
      (Or.inl (by decide)),
   dealer_fill_frame exMap [exNonTarget, exFilled] 1 (by decide)
      (Or.inr ⟨"OldDealer", by decide, by decide⟩)⟩

/-- C8: the lead loader fails with a `ParseError` exactly when some
row's timestamp cell is unparseable, and on success the parsing stage
keeps every row (none is silently skipped). -/
theorem lead_loader_parse_error_iff (parseTs : String → Option Nat)
    (dateOf : Nat → Nat) (rows : List Lead) :
    (isErr (process_struxure_leads parseTs dateOf rows) = true ↔
      ∃ r ∈ rows, parseTs r.timestamp = none) ∧
    (∀ ds : List DLead,
      parseAllTimestamps parseTs dateOf rows = Except.ok ds →
        ds.map DLead.lead = rows) := by
  constructor
  · rw [← isErr_parseAllTimestamps_iff parseTs dateOf rows,
      process_struxure_leads]
    cases hrec : parseAllTimestamps parseTs dateOf rows with
    | error e => exact Iff.rfl
    | ok ds => exact Iff.rfl
  · exact parseAllTimestamps_ok_keeps_rows parseTs dateOf rows

/-- Witness for C8: a run containing one bad timestamp aborts. -/
theorem lead_loader_parse_error_iff_witness :
    isErr (process_struxure_leads parseTs0 dateOf0 [goodLead, badLead]) =
      true :=
  (lead_loader_parse_error_iff parseTs0 dateOf0 [goodLead, badLead]).1.mpr
    ⟨badLead, by decide, by decide⟩

/-- C9 counterexample: for an ASCII-only reporting sink and an
unresolved lead whose raw zip cell contains a non-ASCII character, the
report line cannot be encoded and the fallback line (which replaces
only the name portion) cannot be encoded either, so rendering the line
aborts instead of recovering. -/
theorem render_line_aborts_cex :
    strEncodable asciiEnc (stillEmptyLine cexZipLead) = false ∧
    isErr (renderStillEmptyLine asciiEnc cexZipLead) = true := by
  constructor <;> decide

/-- C9 (amended): the local recovery covers only unencodable
characters in the name portion of an unresolved-lead report line:
provided the sink encodes all ASCII and the lead's raw and cleaned zip
text, rendering never aborts — an encodable line is printed as is, and
an unencodable one is reprinted with the ASCII-replaced name. -/
theorem render_line_recovers (enc : Char → Bool) (a : ALead)
    (hascii : ∀ c : Char, c.toNat < 128 → enc c = true)
    (hzip : strEncodable enc (zipText a.lead.zip) = true)
    (hclean : strEncodable enc a.zipClean = true) :
    (strEncodable enc (stillEmptyLine a) = true →
      renderStillEmptyLine enc a = Except.ok (stillEmptyLine a)) ∧
    (strEncodable enc (stillEmptyLine a) = false →
      renderStillEmptyLine enc a = Except.ok (stillEmptyLineSafe a)) := by
  constructor
  · intro h1
    rw [renderStillEmptyLine, if_pos h1]
  · intro h1
    have hsafe : strEncodable enc (stillEmptyLineSafe a) = true := by
      rw [stillEmptyLineSafe]
      simp only [strEncodable_append, Bool.and_eq_true]
      exact ⟨⟨⟨⟨⟨⟨strEncodable_of_allAscii enc hascii _ (by decide),
        strEncodable_of_allAscii enc hascii _ (allAscii_asciiReplace _)⟩,
        strEncodable_of_allAscii enc hascii _ (by decide)⟩,
        hzip⟩,
        strEncodable_of_allAscii enc hascii _ (by decide)⟩,
        hclean⟩,
        strEncodable_of_allAscii enc hascii _ (by decide)⟩
    rw [renderStillEmptyLine, if_neg (by simp [h1]), if_pos hsafe]

/-- Witness for the amended C9: a non-ASCII name with ASCII zips is
rendered via the safe replacement line. -/
theorem render_line_recovers_witness :
    renderStillEmptyLine asciiEnc cexNameLead =
      Except.ok (stillEmptyLineSafe cexNameLead) :=
  (render_line_recovers asciiEnc cexNameLead
    (fun c h => by simp [asciiEnc, h]) (by decide) (by decide)).2 (by decide)
